import Mathlib

/-!
Shallow embedding of the portfolio accounting engine of the
crypto-management dashboard (src/src/pages/Dashboard.tsx, `useMemo` block),
with machine-checked statements of the specification's claims about it.

Numbers are modelled as exact rationals (ℚ); JavaScript objects keyed by
strings are modelled as association lists preserving insertion order, which
is the iteration order of non-numeric string keys in JavaScript objects.
-/

namespace CryptoMgmt

/-- Transaction type enum, `transaction_type` in the source. -/
inductive TransactionType where
  | DEPOSIT
  | WITHDRAW
  | BUY
  | SELL
deriving DecidableEq, Repr

/-- A ledger transaction row, as selected from the `transactions` table.
`created_at` is the timestamp (epoch milliseconds, as compared via
`new Date(...).getTime()` in the source). -/
structure Transaction where
  id : String
  profile_id : Option String
  transaction_type : TransactionType
  asset : String
  asset_quantity : ℚ
  price_per_asset_usd : ℚ
  transaction_value_usd : ℚ
  created_at : ℕ
deriving DecidableEq, Repr

/-- A client profile row (`profiles` table, `id` and `name` columns). -/
structure Profile where
  id : String
  name : String
deriving DecidableEq, Repr

/-- Output row of the asset-holdings table. -/
structure AssetHolding where
  name : String
  quantity : ℚ
  marketValue : ℚ
deriving DecidableEq, Repr

/-- Output row of the client-ownership table. -/
structure ClientBreakdown where
  name : String
  capitalDeposited : ℚ
  ownershipPercentage : ℚ
  equityValue : ℚ
deriving DecidableEq, Repr

/-- Output entry of the allocation treemap. -/
structure AssetAllocation where
  name : String
  value : ℚ
deriving DecidableEq, Repr

/-- Output entry of the realized-P&L chart.  In the source the `x` field is
the string `asset (formatted date)`; the date formatting is locale rendering,
so the record is modelled as the pair of the asset and the raw timestamp. -/
structure RealizedPnL where
  asset : String
  createdAt : ℕ
  y : ℚ
deriving DecidableEq, Repr

/-- The live price map, keyed by lowercased asset symbol (as returned by
`fetchCryptoPrices`). -/
abbrev PriceMap := List (String × ℚ)

/-- JavaScript property read `m[k]` on an object modelled as an association
list: the value at the first entry with key `k`, if any. -/
def lookupAssoc : List (String × α) → String → Option α
  | [], _ => none
  | (a, x) :: rest, k => if a = k then some x else lookupAssoc rest k

/-- ASCII lowercasing, `asset.toLowerCase()` in the source (asset symbols
are ASCII tickers). -/
def lowerString (s : String) : String :=
  ⟨s.data.map Char.toLower⟩

/-- Sum of `transaction_value_usd` over transactions of one type
(`transactions.filter(t => t.transaction_type === ty).reduce((s,t) => s + t.transaction_value_usd, 0)`). -/
def sumValues (txs : List Transaction) (ty : TransactionType) : ℚ :=
  ((txs.filter (fun t => t.transaction_type = ty)).map (·.transaction_value_usd)).sum

/-- Cash balance: `deposits + sells - withdrawals - buys` (line 131). -/
def calculatedTotalCash (txs : List Transaction) : ℚ :=
  sumValues txs .DEPOSIT + sumValues txs .SELL
    - sumValues txs .WITHDRAW - sumValues txs .BUY

/-- Add `v` to the first entry of the association list with key `k`,
appending `(k, v)` when the key is absent — the JavaScript pattern
`m[k] = (m[k] || 0) + v` on an object, which keeps the position of an
existing key and appends a new one. -/
def bumpAssoc : List (String × ℚ) → String → ℚ → List (String × ℚ)
  | [], k, v => [(k, v)]
  | (a, x) :: rest, k, v =>
      if a = k then (a, x + v) :: rest else (a, x) :: bumpAssoc rest k v

/-- One step of building `cryptoHoldingsMap` (lines 134–139): skip `USD`
rows, initialise a missing key to `0`, then adjust by the traded quantity on
BUY/SELL. -/
def holdingsStep (m : List (String × ℚ)) (t : Transaction) : List (String × ℚ) :=
  if t.asset = "USD" then m
  else
    let m' := if (lookupAssoc m t.asset).isSome then m else m ++ [(t.asset, 0)]
    match t.transaction_type with
    | .BUY => bumpAssoc m' t.asset t.asset_quantity
    | .SELL => bumpAssoc m' t.asset (-t.asset_quantity)
    | _ => m'

/-- Per-asset net quantity map, in key-insertion order (lines 133–139). -/
def cryptoHoldingsMap (txs : List Transaction) : List (String × ℚ) :=
  txs.foldl holdingsStep []

/-- Weighted-average cost per unit of an asset (lines 141–147):
total USD spent on its BUYs divided by total quantity bought, `0` when
nothing was bought. -/
def costBasis (txs : List Transaction) (asset : String) : ℚ :=
  let buyTransactions := txs.filter (fun t => t.asset = asset ∧ t.transaction_type = .BUY)
  let totalUsdSpent := (buyTransactions.map (·.transaction_value_usd)).sum
  let totalQuantityBought := (buyTransactions.map (·.asset_quantity)).sum
  if 0 < totalQuantityBought then totalUsdSpent / totalQuantityBought else 0

/-- Float-dust display threshold used at line 156 (`1e-6`). -/
def dustEps : ℚ := 1 / 1000000

/-- One holdings-table row (lines 150–155): the live price is looked up by
lowercased symbol and falls back to the asset's cost basis when missing. -/
def mkHolding (txs : List Transaction) (prices : PriceMap) (e : String × ℚ) : AssetHolding :=
  let livePrice := lookupAssoc prices (lowerString e.1)
  let priceToUse := livePrice.getD (costBasis txs e.1)
  { name := e.1, quantity := e.2, marketValue := e.2 * priceToUse }

/-- Asset-holdings list (lines 149–156): map the holdings map to rows, then
drop rows whose quantity is not above the dust threshold. -/
def calculatedAssetHoldings (txs : List Transaction) (prices : PriceMap) : List AssetHolding :=
  ((cryptoHoldingsMap txs).map (mkHolding txs prices)).filter
    (fun h => dustEps < h.quantity)

/-- Total market value of the displayed holdings (line 158). -/
def cryptoValue (txs : List Transaction) (prices : PriceMap) : ℚ :=
  ((calculatedAssetHoldings txs prices).map (·.marketValue)).sum

/-- Total portfolio value (line 159): crypto value plus cash. -/
def calculatedTPV (txs : List Transaction) (prices : PriceMap) : ℚ :=
  cryptoValue txs prices + calculatedTotalCash txs

/-- Net capital invested (line 160): deposits minus withdrawals. -/
def netCapitalInvested (txs : List Transaction) : ℚ :=
  sumValues txs .DEPOSIT - sumValues txs .WITHDRAW

/-- All-time profit and loss (line 161). -/
def calculatedAllTimePL (txs : List Transaction) (prices : PriceMap) : ℚ :=
  calculatedTPV txs prices - netCapitalInvested txs

/-- Allocation treemap entries (lines 163–166): one entry per displayed
holding, plus a `Cash` entry when the cash balance exceeds one cent. -/
def calculatedAssetAllocation (txs : List Transaction) (prices : PriceMap) : List AssetAllocation :=
  let base := (calculatedAssetHoldings txs prices).map (fun h => { name := h.name, value := h.marketValue : AssetAllocation })
  if 1 / 100 < calculatedTotalCash txs then base ++ [{ name := "Cash", value := calculatedTotalCash txs }] else base

/-- JavaScript `Array.prototype.sort` with a consistent comparator is a
stable sort; modelled as insertion sort parameterised by the predicate
`keep y x`: the inserted element `x` passes over `y` exactly when the
comparator orders `y` strictly before `x`, so ties keep input order. -/
def insertStable (keep : α → α → Bool) (x : α) : List α → List α
  | [] => [x]
  | y :: ys => if keep y x then y :: insertStable keep x ys else x :: y :: ys

/-- Stable sort by repeated `insertStable`. -/
def sortStable (keep : α → α → Bool) : List α → List α
  | [] => []
  | x :: xs => insertStable keep x (sortStable keep xs)

/-- Comparator of line 180: `(a, b) => b.equityValue - a.equityValue`,
i.e. descending by equity; `keep y x` holds when `y` sorts strictly
before `x`. -/
def equityDescKeep (y x : ClientBreakdown) : Bool :=
  x.equityValue < y.equityValue

/-- Per-client DEPOSIT totals map (lines 168–173): fold the DEPOSIT
transactions carrying a profile id into an object keyed by profile id. -/
def clientDeposits (txs : List Transaction) : List (String × ℚ) :=
  txs.foldl
    (fun m t =>
      if t.transaction_type = .DEPOSIT then
        match t.profile_id with
        | some pid => bumpAssoc m pid t.transaction_value_usd
        | none => m
      else m)
    []

/-- Denominator of the ownership share (line 174): the sum of the values of
the `clientDeposits` object. -/
def totalDeposits (txs : List Transaction) : ℚ :=
  ((clientDeposits txs).map Prod.snd).sum

/-- Client-ownership rows before sorting (lines 175–179): one row per
profile with its deposited capital, ownership share (0 when no deposits
exist) and equity. -/
def clientRows (profiles : List Profile) (txs : List Transaction)
    (prices : PriceMap) : List ClientBreakdown :=
  profiles.map (fun profile =>
    let capitalDeposited := (lookupAssoc (clientDeposits txs) profile.id).getD 0
    let ownershipPercentage :=
      if 0 < totalDeposits txs then capitalDeposited / totalDeposits txs * 100 else 0
    let equityValue := ownershipPercentage / 100 * calculatedTPV txs prices
    { name := profile.name, capitalDeposited := capitalDeposited,
      ownershipPercentage := ownershipPercentage, equityValue := equityValue })

/-- Client-ownership table (lines 175–180): the rows sorted descending by
equity value (line 180). -/
def calculatedClientBreakdown (profiles : List Profile) (txs : List Transaction)
    (prices : PriceMap) : List ClientBreakdown :=
  sortStable equityDescKeep (clientRows profiles txs prices)

/-- Running per-asset cost state of the realized-P&L replay (line 184). -/
structure RunningCost where
  totalQuantity : ℚ
  totalCost : ℚ
deriving DecidableEq, Repr

/-- Replace the value at the first entry with key `k` (JavaScript property
assignment on an existing key keeps its position). -/
def setAssoc : List (String × RunningCost) → String → RunningCost → List (String × RunningCost)
  | [], k, v => [(k, v)]
  | (a, x) :: rest, k, v =>
      if a = k then (a, v) :: rest else (a, x) :: setAssoc rest k v

/-- Guarded percentage of lines 202–204: `(value - cost)/cost * 100` when
the cost of the sold units is positive, else `0`. -/
def pnlPercentage (valueUsd costOfSold : ℚ) : ℚ :=
  if 0 < costOfSold then (valueUsd - costOfSold) / costOfSold * 100 else 0

/-- Negative-dust clamp threshold of line 213 (`1e-9`). -/
def clampEps : ℚ := 1 / 1000000000

/-- One step of the realized-P&L replay (lines 187–219): skip `USD` rows,
initialise missing running state, accumulate BUYs, and for a SELL with
positive running quantity emit one record and decrement the running state,
clamping it to zero when the remaining quantity falls below `clampEps`. -/
def pnlStep (acc : List (String × RunningCost) × List RealizedPnL) (t : Transaction) :
    List (String × RunningCost) × List RealizedPnL :=
  if t.asset = "USD" then acc
  else
    let m := if (lookupAssoc acc.1 t.asset).isSome then acc.1 else acc.1 ++ [(t.asset, ⟨0, 0⟩)]
    let s := (lookupAssoc m t.asset).getD ⟨0, 0⟩
    match t.transaction_type with
    | .BUY =>
        (setAssoc m t.asset ⟨s.totalQuantity + t.asset_quantity, s.totalCost + t.transaction_value_usd⟩,
         acc.2)
    | .SELL =>
        if 0 < s.totalQuantity then
          let averageCostPerUnit := s.totalCost / s.totalQuantity
          let costOfSoldAssets := t.asset_quantity * averageCostPerUnit
          let pnl := pnlPercentage t.transaction_value_usd costOfSoldAssets
          let q := s.totalQuantity - t.asset_quantity
          let c := s.totalCost - costOfSoldAssets
          let s' : RunningCost := if q < clampEps then ⟨0, 0⟩ else ⟨q, c⟩
          (setAssoc m t.asset s', acc.2 ++ [⟨t.asset, t.created_at, pnl⟩])
        else (m, acc.2)
    | _ => (m, acc.2)

/-- Comparator of line 185: ascending by `created_at`. -/
def createdAtAscKeep (y x : Transaction) : Bool :=
  y.created_at < x.created_at

/-- Transactions in chronological replay order (line 185). -/
def sortedTransactions (txs : List Transaction) : List Transaction :=
  sortStable createdAtAscKeep txs

/-- Full realized-P&L replay result: final running state and emitted
records (lines 183–219). -/
def realizedPnLReplay (txs : List Transaction) :
    List (String × RunningCost) × List RealizedPnL :=
  (sortedTransactions txs).foldl pnlStep ([], [])

/-- Realized-P&L chart records, in chronological order. -/
def calculatedRealizedPnL (txs : List Transaction) : List RealizedPnL :=
  (realizedPnLReplay txs).2

/-- Net deposits used by the return-on-capital line (line 236). -/
def netDeposits (txs : List Transaction) : ℚ :=
  sumValues txs .DEPOSIT - sumValues txs .WITHDRAW

/-- Percentage return on net capital (line 237), `0` when net deposits are
not positive. -/
def plReturn (txs : List Transaction) (prices : PriceMap) : ℚ :=
  if 0 < netDeposits txs then calculatedAllTimePL txs prices / netDeposits txs * 100 else 0

/-- The record returned by the dashboard's `useMemo` aggregation. -/
structure DashboardSnapshot where
  totalPortfolioValue : ℚ
  totalCash : ℚ
  allTimePL : ℚ
  assetHoldings : List AssetHolding
  assetAllocation : List AssetAllocation
  clientBreakdown : List ClientBreakdown
  realizedPnLData : List RealizedPnL
deriving DecidableEq, Repr

/-- The dashboard aggregation (lines 122–230), for a finished load: an
empty transaction list short-circuits to an all-zero snapshot (line 124),
otherwise every derived metric is computed. -/
def dashboardSnapshot (profiles : List Profile) (txs : List Transaction)
    (prices : PriceMap) : DashboardSnapshot :=
  if txs.isEmpty then
    { totalPortfolioValue := 0, totalCash := 0, allTimePL := 0,
      assetHoldings := [], assetAllocation := [], clientBreakdown := [], realizedPnLData := [] }
  else
    { totalPortfolioValue := calculatedTPV txs prices,
      totalCash := calculatedTotalCash txs,
      allTimePL := calculatedAllTimePL txs prices,
      assetHoldings := calculatedAssetHoldings txs prices,
      assetAllocation := calculatedAssetAllocation txs prices,
      clientBreakdown := calculatedClientBreakdown profiles txs prices,
      realizedPnLData := calculatedRealizedPnL txs }

/-! ### Closed-form companions used to state the claims

These re-express the object-building folds of the source as direct filtered
sums and first-occurrence lists, so that theorems about the folds have
independent right-hand sides. -/

/-- Total USD deposited by one profile: the sum of its DEPOSIT rows. -/
def depositsFor (txs : List Transaction) (pid : String) : ℚ :=
  ((txs.filter (fun t => t.transaction_type = .DEPOSIT ∧ t.profile_id = some pid)).map
    (·.transaction_value_usd)).sum

/-- Total USD of all DEPOSIT rows that carry a profile id. -/
def depositsTotal (txs : List Transaction) : ℚ :=
  ((txs.filter (fun t => t.transaction_type = .DEPOSIT ∧ t.profile_id.isSome)).map
    (·.transaction_value_usd)).sum

/-- Append a key if it has not been seen yet. -/
def occInsert (acc : List String) (a : String) : List String :=
  if a ∈ acc then acc else acc ++ [a]

/-- The distinct elements of a list, each at the position of its first
occurrence. -/
def firstOccurrences (l : List String) : List String :=
  l.foldl occInsert []

/-- Asset symbols of the non-cash transactions, in ledger order. -/
def nonUsdAssets (txs : List Transaction) : List String :=
  (txs.filter (fun t => ¬ t.asset = "USD")).map (·.asset)

/-! ### Concrete inputs for witnesses and counterexamples -/

/-- A $100 BUY of one BTC unit. -/
def buyBtc1 : Transaction :=
  { id := "t1", profile_id := none, transaction_type := .BUY, asset := "BTC",
    asset_quantity := 1, price_per_asset_usd := 100, transaction_value_usd := 100,
    created_at := 0 }

/-- A $150 SELL of one BTC unit, after `buyBtc1`. -/
def sellBtc1 : Transaction :=
  { id := "t2", profile_id := none, transaction_type := .SELL, asset := "BTC",
    asset_quantity := 1, price_per_asset_usd := 150, transaction_value_usd := 150,
    created_at := 1 }

/-- A BUY of a dust-sized position: 1e-7 units for $1. -/
def buyDust : Transaction :=
  { id := "t3", profile_id := none, transaction_type := .BUY, asset := "BTC",
    asset_quantity := 1 / 10000000, price_per_asset_usd := 10000000,
    transaction_value_usd := 1, created_at := 0 }

/-- A $10 BUY of one AAA unit (first-listed, lower-valued asset). -/
def buyAaa : Transaction :=
  { id := "t4", profile_id := none, transaction_type := .BUY, asset := "AAA",
    asset_quantity := 1, price_per_asset_usd := 10, transaction_value_usd := 10,
    created_at := 0 }

/-- A $20 BUY of one BBB unit (second-listed, higher-valued asset). -/
def buyBbb : Transaction :=
  { id := "t5", profile_id := none, transaction_type := .BUY, asset := "BBB",
    asset_quantity := 1, price_per_asset_usd := 20, transaction_value_usd := 20,
    created_at := 1 }

/-- A SELL of one ETH unit for $150. -/
def sellEth1 : Transaction :=
  { id := "t6", profile_id := none, transaction_type := .SELL, asset := "ETH",
    asset_quantity := 1, price_per_asset_usd := 150, transaction_value_usd := 150,
    created_at := 5 }

/-- Client profile A. -/
def profA : Profile := { id := "p1", name := "A" }

/-- Client profile B. -/
def profB : Profile := { id := "p2", name := "B" }

/-- A $100 DEPOSIT by profile `p1`. -/
def depA : Transaction :=
  { id := "t7", profile_id := some "p1", transaction_type := .DEPOSIT, asset := "USD",
    asset_quantity := 0, price_per_asset_usd := 0, transaction_value_usd := 100,
    created_at := 0 }

/-- A $50 WITHDRAW by profile `p1`. -/
def wdA : Transaction :=
  { id := "t8", profile_id := some "p1", transaction_type := .WITHDRAW, asset := "USD",
    asset_quantity := 0, price_per_asset_usd := 0, transaction_value_usd := 50,
    created_at := 1 }

/-- A $100 DEPOSIT by profile `p2`. -/
def depB : Transaction :=
  { id := "t9", profile_id := some "p2", transaction_type := .DEPOSIT, asset := "USD",
    asset_quantity := 0, price_per_asset_usd := 0, transaction_value_usd := 100,
    created_at := 2 }

/-- A $100 DEPOSIT tagged with a profile id that no listed profile has. -/
def depOrphan : Transaction :=
  { id := "t10", profile_id := some "zz", transaction_type := .DEPOSIT, asset := "USD",
    asset_quantity := 0, price_per_asset_usd := 0, transaction_value_usd := 100,
    created_at := 3 }

/-! ### Association-list lemmas -/

theorem lookupAssoc_append_of_none {α : Type} (m l : List (String × α)) (k : String)
    (h : lookupAssoc m k = none) : lookupAssoc (m ++ l) k = lookupAssoc l k := by
  induction m with
  | nil => simp
  | cons e rest ih =>
      obtain ⟨a, x⟩ := e
      by_cases hak : a = k
      · simp [lookupAssoc, hak] at h
      · simp only [List.cons_append, lookupAssoc, if_neg hak] at h ⊢
        exact ih h

theorem lookupAssoc_isSome_iff {α : Type} (m : List (String × α)) (k : String) :
    (lookupAssoc m k).isSome = true ↔ k ∈ m.map Prod.fst := by
  induction m with
  | nil => simp [lookupAssoc]
  | cons e rest ih =>
      obtain ⟨a, x⟩ := e
      by_cases hak : a = k
      · simp [lookupAssoc, hak]
      · simp [lookupAssoc, hak, ih, Ne.symm hak]

theorem getD_lookupAssoc_bumpAssoc (m : List (String × ℚ)) (k k' : String) (v : ℚ) :
    (lookupAssoc (bumpAssoc m k v) k').getD 0 =
      (lookupAssoc m k').getD 0 + (if k' = k then v else 0) := by
  induction m with
  | nil =>
      simp only [bumpAssoc, lookupAssoc]
      by_cases h : k = k'
      · subst h; simp
      · have h1 : ¬ k' = k := fun hh => h hh.symm
        simp [h, h1]
  | cons e rest ih =>
      obtain ⟨a, x⟩ := e
      simp only [bumpAssoc]
      by_cases hak : a = k
      · subst hak
        simp only [if_pos rfl, lookupAssoc]
        by_cases hk' : a = k'
        · subst hk'; simp
        · have h1 : ¬ k' = a := fun hh => hk' hh.symm
          simp [hk', h1]
      · simp only [if_neg hak, lookupAssoc]
        by_cases hk' : a = k'
        · subst hk'
          simp [hak]
        · simp [hk', ih]

theorem sum_bumpAssoc (m : List (String × ℚ)) (k : String) (v : ℚ) :
    ((bumpAssoc m k v).map Prod.snd).sum = (m.map Prod.snd).sum + v := by
  induction m with
  | nil => simp [bumpAssoc]
  | cons e rest ih =>
      obtain ⟨a, x⟩ := e
      by_cases hak : a = k
      · simp [bumpAssoc, hak]; ring
      · simp [bumpAssoc, hak, ih]; ring

theorem keys_bumpAssoc_of_mem (m : List (String × ℚ)) (k : String) (v : ℚ)
    (h : k ∈ m.map Prod.fst) : (bumpAssoc m k v).map Prod.fst = m.map Prod.fst := by
  induction m with
  | nil => simp at h
  | cons e rest ih =>
      obtain ⟨a, x⟩ := e
      simp only [List.map_cons] at h
      by_cases hak : a = k
      · simp [bumpAssoc, hak]
      · rcases List.mem_cons.mp h with h' | h'
        · exact absurd h'.symm hak
        · simp [bumpAssoc, hak, ih h']

/-! ### Stable-sort lemmas -/

theorem perm_insertStable (keep : α → α → Bool) (x : α) (l : List α) :
    List.Perm (insertStable keep x l) (x :: l) := by
  induction l with
  | nil => exact List.Perm.refl _
  | cons y ys ih =>
      by_cases h : keep y x
      · have h1 : insertStable keep x (y :: ys) = y :: insertStable keep x ys := by
          simp [insertStable, h]
        rw [h1]
        exact (ih.cons y).trans (List.Perm.swap x y ys)
      · have h1 : insertStable keep x (y :: ys) = x :: y :: ys := by
          simp [insertStable, h]
        rw [h1]

theorem perm_sortStable (keep : α → α → Bool) (l : List α) :
    List.Perm (sortStable keep l) l := by
  induction l with
  | nil => exact List.Perm.refl _
  | cons x xs ih =>
      exact (perm_insertStable keep x (sortStable keep xs)).trans (ih.cons x)

theorem pairwise_insertStable {R : α → α → Prop} {keep : α → α → Bool}
    (htrans : ∀ a b c, R a b → R b c → R a c)
    (h1 : ∀ a b, keep a b = true → R a b)
    (h2 : ∀ a b, keep a b = false → R b a)
    (x : α) (l : List α) (hl : l.Pairwise R) :
    (insertStable keep x l).Pairwise R := by
  induction l with
  | nil => simp [insertStable]
  | cons y ys ih =>
      rcases List.pairwise_cons.mp hl with ⟨hy, hys⟩
      by_cases hk : keep y x
      · have hmem : ∀ z ∈ insertStable keep x ys, R y z := by
          intro z hz
          rcases List.mem_cons.mp ((perm_insertStable keep x ys).mem_iff.mp hz) with hz' | hz'
          · exact hz' ▸ h1 y x hk
          · exact hy z hz'
        simpa [insertStable, hk] using List.pairwise_cons.mpr ⟨hmem, ih hys⟩
      · have hxy : R x y := h2 y x (by simpa using hk)
        have hxz : ∀ z ∈ y :: ys, R x z := by
          intro z hz
          rcases List.mem_cons.mp hz with hz' | hz'
          · exact hz' ▸ hxy
          · exact htrans x y z hxy (hy z hz')
        simpa [insertStable, hk] using List.pairwise_cons.mpr ⟨hxz, hl⟩

/-! ### The deposits fold as direct sums -/

theorem getD_lookupAssoc_clientDeposits_aux (txs : List Transaction)
    (m : List (String × ℚ)) (pid : String) :
    (lookupAssoc (txs.foldl
        (fun m t =>
          if t.transaction_type = .DEPOSIT then
            match t.profile_id with
            | some p => bumpAssoc m p t.transaction_value_usd
            | none => m
          else m) m) pid).getD 0 =
      (lookupAssoc m pid).getD 0 + depositsFor txs pid := by
  induction txs generalizing m with
  | nil => simp [depositsFor]
  | cons t rest ih =>
      rw [List.foldl_cons]
      by_cases hd : t.transaction_type = TransactionType.DEPOSIT
      · cases hp : t.profile_id with
        | none =>
            have hfor : depositsFor (t :: rest) pid = depositsFor rest pid := by
              simp [depositsFor, List.filter_cons, hd, hp]
            simp only [if_pos hd, hp]
            rw [ih m, hfor]
        | some q =>
            simp only [if_pos hd, hp]
            rw [ih, getD_lookupAssoc_bumpAssoc]
            by_cases hq : pid = q
            · subst hq
              have hfor : depositsFor (t :: rest) pid =
                  t.transaction_value_usd + depositsFor rest pid := by
                simp [depositsFor, List.filter_cons, hd, hp]
              rw [hfor, if_pos rfl]
              ring
            · have h1 : ¬ q = pid := fun hh => hq hh.symm
              have hfor : depositsFor (t :: rest) pid = depositsFor rest pid := by
                simp [depositsFor, List.filter_cons, hd, hp, h1]
              rw [hfor, if_neg hq]
              ring
      · have hfor : depositsFor (t :: rest) pid = depositsFor rest pid := by
          simp [depositsFor, List.filter_cons, hd]
        rw [if_neg hd, ih, hfor]

/-- Looking a profile up in the `clientDeposits` object gives exactly the
sum of that profile's DEPOSIT rows. -/
theorem getD_lookupAssoc_clientDeposits (txs : List Transaction) (pid : String) :
    (lookupAssoc (clientDeposits txs) pid).getD 0 = depositsFor txs pid := by
  simpa [clientDeposits, lookupAssoc] using
    getD_lookupAssoc_clientDeposits_aux txs [] pid

theorem sum_clientDeposits_aux (txs : List Transaction) (m : List (String × ℚ)) :
    (((txs.foldl
        (fun m t =>
          if t.transaction_type = .DEPOSIT then
            match t.profile_id with
            | some p => bumpAssoc m p t.transaction_value_usd
            | none => m
          else m) m)).map Prod.snd).sum =
      (m.map Prod.snd).sum + depositsTotal txs := by
  induction txs generalizing m with
  | nil => simp [depositsTotal]
  | cons t rest ih =>
      rw [List.foldl_cons]
      by_cases hd : t.transaction_type = TransactionType.DEPOSIT
      · cases hp : t.profile_id with
        | none =>
            have htot : depositsTotal (t :: rest) = depositsTotal rest := by
              simp [depositsTotal, List.filter_cons, hd, hp]
            simp only [if_pos hd, hp]
            rw [ih m, htot]
        | some q =>
            have htot : depositsTotal (t :: rest) =
                t.transaction_value_usd + depositsTotal rest := by
              simp [depositsTotal, List.filter_cons, hd, hp]
            simp only [if_pos hd, hp]
            rw [ih, sum_bumpAssoc, htot]
            ring
      · have htot : depositsTotal (t :: rest) = depositsTotal rest := by
          simp [depositsTotal, List.filter_cons, hd]
        rw [if_neg hd, ih, htot]

/-- The ownership denominator equals the sum of all profile-tagged DEPOSIT
rows. -/
theorem totalDeposits_eq_depositsTotal (txs : List Transaction) :
    totalDeposits txs = depositsTotal txs := by
  simpa [totalDeposits, clientDeposits] using sum_clientDeposits_aux txs []

/-- Expand the per-profile deposit sum over the head transaction. -/
theorem depositsFor_cons (t : Transaction) (txs : List Transaction) (pid : String) :
    depositsFor (t :: txs) pid =
      (if t.transaction_type = TransactionType.DEPOSIT ∧ t.profile_id = some pid
        then t.transaction_value_usd else 0) + depositsFor txs pid := by
  by_cases h : t.transaction_type = TransactionType.DEPOSIT ∧ t.profile_id = some pid
  · simp [depositsFor, List.filter_cons, h]
  · simp [depositsFor, List.filter_cons, h]

/-- Expand the total deposit sum over the head transaction. -/
theorem depositsTotal_cons (t : Transaction) (txs : List Transaction) :
    depositsTotal (t :: txs) =
      (if t.transaction_type = TransactionType.DEPOSIT ∧ t.profile_id.isSome = true
        then t.transaction_value_usd else 0) + depositsTotal txs := by
  by_cases h : t.transaction_type = TransactionType.DEPOSIT ∧ t.profile_id.isSome = true
  · simp [depositsTotal, List.filter_cons, h]
  · simp [depositsTotal, List.filter_cons, h]

theorem sum_map_add_distrib (l : List α) (f g : α → ℚ) :
    (l.map (fun x => f x + g x)).sum = (l.map f).sum + (l.map g).sum := by
  induction l with
  | nil => simp
  | cons a rest ih => simp [ih]; ring

theorem sum_map_ite_eq_of_nodup (ids : List String) (q : String) (v : ℚ)
    (hq : q ∈ ids) (hnd : ids.Nodup) :
    (ids.map (fun i => if i = q then v else 0)).sum = v := by
  induction ids with
  | nil => simp at hq
  | cons a rest ih =>
      rcases List.nodup_cons.mp hnd with ⟨hna, hndr⟩
      rcases List.mem_cons.mp hq with h | h
      · subst h
        have hz : (rest.map (fun i => if i = q then v else 0)).sum = 0 := by
          apply List.sum_eq_zero
          intro x hx
          rcases List.mem_map.mp hx with ⟨i, hi, hix⟩
          have : ¬ i = q := fun hh => hna (hh ▸ hi)
          rw [if_neg this] at hix
          exact hix.symm
        simp [hz]
      · have ha : ¬ a = q := fun hh => hna (hh ▸ h)
        simp [ha, ih h hndr]

/-- Exchanging the per-profile sum with the per-transaction sum: when profile
ids are distinct and every profile-tagged DEPOSIT row references a listed
profile, the per-profile deposit sums add up to the overall deposit total. -/
theorem sum_depositsFor_profiles (profiles : List Profile) (txs : List Transaction)
    (hnd : (profiles.map Profile.id).Nodup)
    (hcov : ∀ t ∈ txs, t.transaction_type = TransactionType.DEPOSIT →
      ∀ pid, t.profile_id = some pid → pid ∈ profiles.map Profile.id) :
    (profiles.map (fun p => depositsFor txs p.id)).sum = depositsTotal txs := by
  induction txs with
  | nil => simp [depositsFor, depositsTotal]
  | cons t rest ih =>
      have hcov' : ∀ t' ∈ rest, t'.transaction_type = TransactionType.DEPOSIT →
          ∀ pid, t'.profile_id = some pid → pid ∈ profiles.map Profile.id :=
        fun t' ht' => hcov t' (List.mem_cons_of_mem t ht')
      have hmap : profiles.map (fun p => depositsFor (t :: rest) p.id) =
          profiles.map (fun p =>
            (if t.transaction_type = TransactionType.DEPOSIT ∧ t.profile_id = some p.id
              then t.transaction_value_usd else 0) + depositsFor rest p.id) := by
        apply List.map_congr_left
        intro p _
        exact depositsFor_cons t rest p.id
      rw [hmap, sum_map_add_distrib, ih hcov', depositsTotal_cons]
      congr 1
      by_cases hd : t.transaction_type = TransactionType.DEPOSIT
      · cases hp : t.profile_id with
        | none =>
            rw [if_neg (by rintro ⟨-, h2⟩; simp at h2)]
            apply List.sum_eq_zero
            intro x hx
            rcases List.mem_map.mp hx with ⟨p, -, hpx⟩
            rw [if_neg (by rintro ⟨-, h2⟩; exact Option.noConfusion h2)] at hpx
            exact hpx.symm
        | some q =>
            have hqmem : q ∈ profiles.map Profile.id :=
              hcov t (List.mem_cons_self t rest) hd q hp
            have h1 : ∀ p : Profile,
                (if t.transaction_type = TransactionType.DEPOSIT ∧ some q = some p.id
                  then t.transaction_value_usd else 0) =
                (if p.id = q then t.transaction_value_usd else 0) := by
              intro p
              by_cases hpq : p.id = q
              · rw [if_pos ⟨hd, by rw [hpq]⟩, if_pos hpq]
              · rw [if_neg, if_neg hpq]
                rintro ⟨-, h2⟩
                exact hpq (Option.some_inj.mp h2).symm
            have h3 : profiles.map (fun p =>
                (if t.transaction_type = TransactionType.DEPOSIT ∧ some q = some p.id
                  then t.transaction_value_usd else 0)) =
                (profiles.map Profile.id).map
                  (fun i => if i = q then t.transaction_value_usd else 0) := by
              rw [List.map_map]
              exact List.map_congr_left (fun p _ => h1 p)
            rw [h3, sum_map_ite_eq_of_nodup _ q _ hqmem hnd,
              if_pos (⟨hd, rfl⟩ : t.transaction_type = TransactionType.DEPOSIT ∧
                (some q).isSome = true)]
      · rw [if_neg (fun hh => hd hh.1)]
        apply List.sum_eq_zero
        intro x hx
        rcases List.mem_map.mp hx with ⟨p, -, hpx⟩
        rw [if_neg (fun hh => hd hh.1)] at hpx
        exact hpx.symm

/-! ### Keys of the holdings map -/

theorem keys_holdingsStep (m : List (String × ℚ)) (t : Transaction) :
    (holdingsStep m t).map Prod.fst =
      if t.asset = "USD" then m.map Prod.fst
      else occInsert (m.map Prod.fst) t.asset := by
  by_cases hu : t.asset = "USD"
  · simp [holdingsStep, hu]
  · have hkeys : ((if (lookupAssoc m t.asset).isSome then m
        else m ++ [(t.asset, 0)]).map Prod.fst) = occInsert (m.map Prod.fst) t.asset := by
      by_cases hs : (lookupAssoc m t.asset).isSome = true
      · rw [if_pos hs, occInsert, if_pos ((lookupAssoc_isSome_iff m t.asset).mp hs)]
      · have hnm : ¬ t.asset ∈ m.map Prod.fst :=
          fun hmem => hs ((lookupAssoc_isSome_iff m t.asset).mpr hmem)
        rw [if_neg hs, occInsert, if_neg hnm]
        simp
    have hmem : t.asset ∈ ((if (lookupAssoc m t.asset).isSome then m
        else m ++ [(t.asset, 0)]).map Prod.fst) := by
      rw [hkeys, occInsert]
      by_cases hin : t.asset ∈ m.map Prod.fst
      · rw [if_pos hin]; exact hin
      · rw [if_neg hin]; simp
    rw [if_neg hu]
    unfold holdingsStep
    rw [if_neg hu]
    cases t.transaction_type <;>
      simp only [keys_bumpAssoc_of_mem _ _ _ hmem, hkeys]

theorem keys_cryptoHoldingsMap_aux (txs : List Transaction) (m : List (String × ℚ)) :
    (txs.foldl holdingsStep m).map Prod.fst =
      (nonUsdAssets txs).foldl occInsert (m.map Prod.fst) := by
  induction txs generalizing m with
  | nil => simp [nonUsdAssets]
  | cons t rest ih =>
      rw [List.foldl_cons, ih]
      by_cases hu : t.asset = "USD"
      · have h1 : nonUsdAssets (t :: rest) = nonUsdAssets rest := by
          simp [nonUsdAssets, List.filter_cons, hu]
        rw [h1, keys_holdingsStep, if_pos hu]
      · have h1 : nonUsdAssets (t :: rest) = t.asset :: nonUsdAssets rest := by
          simp [nonUsdAssets, List.filter_cons, hu]
        rw [h1, keys_holdingsStep, if_neg hu, List.foldl_cons]

/-- The holdings map lists assets in order of first appearance among the
non-cash transactions. -/
theorem keys_cryptoHoldingsMap (txs : List Transaction) :
    (cryptoHoldingsMap txs).map Prod.fst = firstOccurrences (nonUsdAssets txs) := by
  simpa [cryptoHoldingsMap, firstOccurrences] using keys_cryptoHoldingsMap_aux txs []

theorem sumValues_perm (txs txs' : List Transaction) (hperm : List.Perm txs txs')
    (ty : TransactionType) : sumValues txs' ty = sumValues txs ty :=
  List.Perm.sum_eq ((hperm.symm.filter _).map _)

theorem pairwise_sortStable {R : α → α → Prop} {keep : α → α → Bool}
    (htrans : ∀ a b c, R a b → R b c → R a c)
    (h1 : ∀ a b, keep a b = true → R a b)
    (h2 : ∀ a b, keep a b = false → R b a)
    (l : List α) : (sortStable keep l).Pairwise R := by
  induction l with
  | nil => simp [sortStable]
  | cons x xs ih => exact pairwise_insertStable htrans h1 h2 x _ ih

theorem filter_insertStable {keep : α → α → Bool} (P : α → Bool) (x : α)
    (h : P x = true → ∀ y, keep y x = true → P y = false) (M : List α) :
    (insertStable keep x M).filter P = if P x then x :: M.filter P else M.filter P := by
  induction M with
  | nil => by_cases hx : P x <;> simp [insertStable, List.filter, hx]
  | cons y ys ih =>
      by_cases hk : keep y x
      · by_cases hx : P x
        · have hy : P y = false := h hx y hk
          simp [insertStable, hk, List.filter_cons, hy, ih, hx]
        · simp [insertStable, hk, List.filter_cons, ih, hx]
      · by_cases hx : P x <;> simp [insertStable, hk, List.filter_cons, hx]

theorem filter_sortStable {keep : α → α → Bool} (P : α → Bool)
    (h : ∀ x y, P x = true → keep y x = true → P y = false) (l : List α) :
    (sortStable keep l).filter P = l.filter P := by
  induction l with
  | nil => rfl
  | cons x xs ih =>
      calc (sortStable keep (x :: xs)).filter P
          = (insertStable keep x (sortStable keep xs)).filter P := rfl
        _ = if P x then x :: (sortStable keep xs).filter P
              else (sortStable keep xs).filter P :=
            filter_insertStable P x (fun hx y => h x y hx) _
        _ = (x :: xs).filter P := by
            by_cases hx : P x <;> simp [List.filter_cons, hx, ih]

/-! ### Claim theorems -/

/-- C1: for every transaction list, the cash balance computed by the engine
equals the sum of DEPOSIT values minus the sum of WITHDRAW values minus the
sum of BUY values plus the sum of SELL values, and the balance is invariant
under any reordering of the transactions (fold-order independence). -/
theorem claim_C1_cash_balance (txs txs' : List Transaction)
    (hperm : List.Perm txs txs') :
    calculatedTotalCash txs =
      sumValues txs .DEPOSIT - sumValues txs .WITHDRAW
        - sumValues txs .BUY + sumValues txs .SELL ∧
    calculatedTotalCash txs' = calculatedTotalCash txs := by
  constructor
  · unfold calculatedTotalCash
    ring
  · unfold calculatedTotalCash
    rw [sumValues_perm txs txs' hperm, sumValues_perm txs txs' hperm,
      sumValues_perm txs txs' hperm, sumValues_perm txs txs' hperm]

/-- C1 witness: the cash identity and reorder-invariance at a concrete
deposit-then-buy ledger and its transposition. -/
theorem claim_C1_cash_balance_witness :
    calculatedTotalCash [depA, buyBtc1] =
      sumValues [depA, buyBtc1] .DEPOSIT - sumValues [depA, buyBtc1] .WITHDRAW
        - sumValues [depA, buyBtc1] .BUY + sumValues [depA, buyBtc1] .SELL ∧
    calculatedTotalCash [buyBtc1, depA] = calculatedTotalCash [depA, buyBtc1] :=
  claim_C1_cash_balance [depA, buyBtc1] [buyBtc1, depA]
    (List.Perm.swap buyBtc1 depA [])

/-- C2: for every transaction list and price map, the total portfolio value
equals the cash balance plus the sum of the market values of the displayed
positions — the total is derived from the parts. -/
theorem claim_C2_total_from_parts (txs : List Transaction) (prices : PriceMap) :
    calculatedTPV txs prices =
      calculatedTotalCash txs +
        ((calculatedAssetHoldings txs prices).map (·.marketValue)).sum := by
  unfold calculatedTPV cryptoValue
  ring

/-- C9: every division in the accounting computation is guarded by a
positivity check on its denominator, and the guarded branch yields 0: the
cost basis when nothing was bought, the per-sale P&L percentage when the
cost of the sold units is not positive, the ownership share when no
deposits exist, and the return on net capital when net deposits are not
positive. -/
theorem claim_C9_division_guards (profiles : List Profile) (txs : List Transaction)
    (prices : PriceMap) (asset : String) (v c : ℚ) :
    (((txs.filter (fun t => t.asset = asset ∧ t.transaction_type = .BUY)).map
        (·.asset_quantity)).sum ≤ 0 → costBasis txs asset = 0) ∧
    (c ≤ 0 → pnlPercentage v c = 0) ∧
    (totalDeposits txs ≤ 0 →
      ∀ entry ∈ calculatedClientBreakdown profiles txs prices,
        entry.ownershipPercentage = 0) ∧
    (netDeposits txs ≤ 0 → plReturn txs prices = 0) := by
  refine ⟨?_, ?_, ?_, ?_⟩
  · intro hq
    unfold costBasis
    rw [if_neg (not_lt.mpr hq)]
  · intro hc
    unfold pnlPercentage
    rw [if_neg (not_lt.mpr hc)]
  · intro htd entry hmem
    unfold calculatedClientBreakdown at hmem
    rw [(perm_sortStable equityDescKeep (clientRows profiles txs prices)).mem_iff] at hmem
    unfold clientRows at hmem
    rcases List.mem_map.mp hmem with ⟨p, -, hpe⟩
    rw [← hpe]
    simp only [if_neg (not_lt.mpr htd)]
  · intro hn
    unfold plReturn
    rw [if_neg (not_lt.mpr hn)]

/-- C9 witness: each guard instantiated at a zero denominator. -/
theorem claim_C9_division_guards_witness :
    costBasis [] "BTC" = 0 ∧ pnlPercentage 5 0 = 0 ∧
    (∀ entry ∈ calculatedClientBreakdown [profA] [] [],
      entry.ownershipPercentage = 0) ∧
    plReturn [] [] = 0 :=
  ⟨(claim_C9_division_guards [profA] [] [] "BTC" 5 0).1 (le_refl 0),
   (claim_C9_division_guards [profA] [] [] "BTC" 5 0).2.1 (le_refl 0),
   (claim_C9_division_guards [profA] [] [] "BTC" 5 0).2.2.1
     (by norm_num [totalDeposits, clientDeposits]),
   (claim_C9_division_guards [profA] [] [] "BTC" 5 0).2.2.2
     (by norm_num [netDeposits, sumValues])⟩

/-- C10: with an empty transaction list the engine short-circuits to an
all-zero snapshot — zero totals and empty holdings, allocation, client
breakdown and realized-P&L lists — for every profile list and price map,
so even a non-empty profile list produces no client rows. -/
theorem claim_C10_empty_ledger (profiles : List Profile) (prices : PriceMap) :
    dashboardSnapshot profiles [] prices =
      { totalPortfolioValue := 0, totalCash := 0, allTimePL := 0,
        assetHoldings := [], assetAllocation := [], clientBreakdown := [],
        realizedPnLData := [] } := rfl

/-- C3 counterexample: one BUY of 1 BTC for $100 and an empty price map.
The claim says the position's market value is 0; the engine instead values
it at its cost basis, $100. -/
theorem claim_C3_counterexample :
    calculatedAssetHoldings [buyBtc1] [] =
      [{ name := "BTC", quantity := 1, marketValue := 100 }] ∧
    (100 : ℚ) ≠ 0 := by
  constructor
  · simp [calculatedAssetHoldings, cryptoHoldingsMap, holdingsStep, bumpAssoc,
      lookupAssoc, mkHolding, lowerString, costBasis, dustEps, buyBtc1, List.filter]
    norm_num
  · norm_num

/-- C3 amended: for every displayed asset whose lowercased symbol is absent
from the price map, the engine falls back to the asset's weighted-average
cost basis as the price, so the market value is quantity times cost basis
(and 0 only when the asset has no BUY rows). -/
theorem claim_C3_missing_price_fallback (txs : List Transaction) (prices : PriceMap)
    (h : AssetHolding) (hmem : h ∈ calculatedAssetHoldings txs prices)
    (hmiss : lookupAssoc prices (lowerString h.name) = none) :
    h.marketValue = h.quantity * costBasis txs h.name := by
  rcases List.mem_filter.mp hmem with ⟨hmem', -⟩
  rcases List.mem_map.mp hmem' with ⟨e, -, he⟩
  subst he
  simp only [mkHolding] at hmiss ⊢
  rw [hmiss]
  rfl

/-- C3 witness: the fallback valuation at the concrete one-BUY ledger with
an empty price map. -/
theorem claim_C3_missing_price_fallback_witness :
    ({ name := "BTC", quantity := 1, marketValue := 100 } : AssetHolding).marketValue =
      ({ name := "BTC", quantity := 1, marketValue := 100 } : AssetHolding).quantity *
        costBasis [buyBtc1] "BTC" :=
  claim_C3_missing_price_fallback [buyBtc1] []
    { name := "BTC", quantity := 1, marketValue := 100 }
    (by
      simp [calculatedAssetHoldings, cryptoHoldingsMap, holdingsStep, bumpAssoc,
        lookupAssoc, mkHolding, lowerString, costBasis, dustEps, buyBtc1, List.filter]
      norm_num)
    rfl

/-- C4 counterexample: a 1e-7-unit position exceeds the claimed threshold
1e-9, yet the engine's holdings list drops it (its threshold is 1e-6). -/
theorem claim_C4_counterexample :
    calculatedAssetHoldings [buyDust] [("btc", 10)] = [] ∧
    (1 / 1000000000 : ℚ) < 1 / 10000000 := by
  constructor
  · simp [calculatedAssetHoldings, cryptoHoldingsMap, holdingsStep, bumpAssoc,
      lookupAssoc, mkHolding, lowerString, costBasis, dustEps, buyDust, List.filter]
    norm_num
  · norm_num

/-- C4 amended: the inclusion threshold is ε = 1e-6: every displayed holding
has net quantity strictly above 1e-6, and every asset of the holdings map
whose net quantity is strictly above 1e-6 is displayed. -/
theorem claim_C4_dust_threshold (txs : List Transaction) (prices : PriceMap) :
    (∀ h ∈ calculatedAssetHoldings txs prices, (1 : ℚ) / 1000000 < h.quantity) ∧
    (∀ e ∈ cryptoHoldingsMap txs, (1 : ℚ) / 1000000 < e.2 →
      mkHolding txs prices e ∈ calculatedAssetHoldings txs prices) := by
  constructor
  · intro h hm
    have hf := (List.mem_filter.mp hm).2
    simpa [dustEps] using hf
  · intro e he hq
    apply List.mem_filter.mpr
    refine ⟨List.mem_map_of_mem _ he, ?_⟩
    simpa [dustEps, mkHolding] using hq

/-- C4 witness: the threshold characterisation at a concrete one-BUY
ledger. -/
theorem claim_C4_dust_threshold_witness :
    (1 : ℚ) / 1000000 <
      ({ name := "BTC", quantity := 1, marketValue := 100 } : AssetHolding).quantity ∧
    mkHolding [buyBtc1] [] ("BTC", 1) ∈ calculatedAssetHoldings [buyBtc1] [] :=
  ⟨(claim_C4_dust_threshold [buyBtc1] []).1
      { name := "BTC", quantity := 1, marketValue := 100 }
      (by
        simp [calculatedAssetHoldings, cryptoHoldingsMap, holdingsStep, bumpAssoc,
          lookupAssoc, mkHolding, lowerString, costBasis, dustEps, buyBtc1, List.filter]
        norm_num),
   (claim_C4_dust_threshold [buyBtc1] []).2 ("BTC", 1)
      (by simp [cryptoHoldingsMap, holdingsStep, bumpAssoc, lookupAssoc, buyBtc1])
      (by norm_num)⟩

/-- C5 counterexample: two BUYs, AAA first at $10 market value, BBB second
at $20.  The claim says the holdings list is sorted descending by market
value; the engine emits the list unsorted, in insertion order AAA, BBB. -/
theorem claim_C5_counterexample :
    ¬ List.Pairwise (fun a b : AssetHolding => b.marketValue ≤ a.marketValue)
      (calculatedAssetHoldings [buyAaa, buyBbb] [("aaa", 10), ("bbb", 20)]) := by
  intro hcontra
  have heval : calculatedAssetHoldings [buyAaa, buyBbb] [("aaa", 10), ("bbb", 20)] =
      [{ name := "AAA", quantity := 1, marketValue := 10 },
       { name := "BBB", quantity := 1, marketValue := 20 }] := by
    simp [calculatedAssetHoldings, cryptoHoldingsMap, holdingsStep, bumpAssoc,
      lookupAssoc, mkHolding, lowerString, costBasis, dustEps, buyAaa, buyBbb,
      List.filter]
    norm_num
  rw [heval] at hcontra
  have h1 := (List.pairwise_cons.mp hcontra).1
    { name := "BBB", quantity := 1, marketValue := 20 }
    (List.mem_cons_self _ _)
  norm_num at h1

/-- C5 amended: the asset-holdings list is not sorted — its rows appear in
first-insertion order (a sublist of the assets in order of first
appearance); the client breakdown is sorted descending by equity value with
a stable tie-break: entries of equal equity keep their original relative
order. -/
theorem claim_C5_display_order (profiles : List Profile) (txs : List Transaction)
    (prices : PriceMap) :
    List.Sublist ((calculatedAssetHoldings txs prices).map (·.name))
      (firstOccurrences (nonUsdAssets txs)) ∧
    List.Pairwise (fun a b : ClientBreakdown => b.equityValue ≤ a.equityValue)
      (calculatedClientBreakdown profiles txs prices) ∧
    (∀ k : ℚ, (calculatedClientBreakdown profiles txs prices).filter
        (fun e => e.equityValue = k) =
      (clientRows profiles txs prices).filter (fun e => e.equityValue = k)) := by
  refine ⟨?_, ?_, ?_⟩
  · have h1 : ((calculatedAssetHoldings txs prices).map (·.name)) =
        ((cryptoHoldingsMap txs).filter
          (fun e => decide (dustEps < e.2))).map Prod.fst := by
      unfold calculatedAssetHoldings
      rw [List.filter_map, List.map_map]
      rfl
    rw [h1, ← keys_cryptoHoldingsMap]
    exact List.Sublist.map Prod.fst (List.filter_sublist _)
  · unfold calculatedClientBreakdown
    refine pairwise_sortStable ?_ ?_ ?_ (clientRows profiles txs prices)
    · exact fun a b c hab hbc => le_trans hbc hab
    · intro a b hk
      exact le_of_lt (by simpa [equityDescKeep] using hk)
    · intro a b hk
      exact not_lt.mp (by simpa [equityDescKeep] using hk)
  · intro k
    unfold calculatedClientBreakdown
    apply filter_sortStable
    intro x y hx hk
    have hxk : x.equityValue = k := by simpa using hx
    have hyk : x.equityValue < y.equityValue := by simpa [equityDescKeep] using hk
    simp only [decide_eq_false_iff_not]
    intro hyk'
    rw [hyk', ← hxk] at hyk
    exact lt_irrefl _ hyk

theorem getD_lookupAssoc_ensure (m : List (String × RunningCost)) (k : String) :
    (lookupAssoc (if (lookupAssoc m k).isSome then m else m ++ [(k, ⟨0, 0⟩)]) k).getD ⟨0, 0⟩ =
      (lookupAssoc m k).getD ⟨0, 0⟩ := by
  by_cases hs : (lookupAssoc m k).isSome = true
  · rw [if_pos hs]
  · have hnone : lookupAssoc m k = none :=
      Option.not_isSome_iff_eq_none.mp (by simpa using hs)
    rw [if_neg hs, lookupAssoc_append_of_none _ _ _ hnone, hnone]
    simp [lookupAssoc]

/-- C6: the realized-P&L replay runs in chronological order and, at each
SELL of a non-cash asset: with positive running quantity it emits exactly
one record valued by the guarded percentage of the sale against the average
cost of the sold units, and with no positive running quantity it emits
nothing; in the concrete scenario BUY 1 unit at $100 then SELL 1 unit at
$150 it emits one record of 50% and clamps the running quantity and cost
back to 0/0. -/
theorem claim_C6_realized_tracker :
    (∀ (acc : List (String × RunningCost) × List RealizedPnL) (t : Transaction),
      t.transaction_type = TransactionType.SELL → ¬ t.asset = "USD" →
      (0 < ((lookupAssoc acc.1 t.asset).getD ⟨0, 0⟩).totalQuantity →
        (pnlStep acc t).2 = acc.2 ++ [⟨t.asset, t.created_at,
          pnlPercentage t.transaction_value_usd
            (t.asset_quantity * (((lookupAssoc acc.1 t.asset).getD ⟨0, 0⟩).totalCost /
              ((lookupAssoc acc.1 t.asset).getD ⟨0, 0⟩).totalQuantity))⟩]) ∧
      (((lookupAssoc acc.1 t.asset).getD ⟨0, 0⟩).totalQuantity ≤ 0 →
        (pnlStep acc t).2 = acc.2)) ∧
    (∀ txs : List Transaction,
      List.Pairwise (fun a b : Transaction => a.created_at ≤ b.created_at)
        (sortedTransactions txs)) ∧
    calculatedRealizedPnL [buyBtc1, sellBtc1] =
      [{ asset := "BTC", createdAt := 1, y := 50 }] ∧
    lookupAssoc (realizedPnLReplay [buyBtc1, sellBtc1]).1 "BTC" =
      some { totalQuantity := 0, totalCost := 0 } := by
  refine ⟨?_, ?_, ?_, ?_⟩
  · intro acc t hsell husd
    constructor
    · intro hq
      simp only [pnlStep, if_neg husd, hsell, getD_lookupAssoc_ensure]
      rw [if_pos hq]
    · intro hq
      simp only [pnlStep, if_neg husd, hsell]
      rw [if_neg (by rw [getD_lookupAssoc_ensure]; exact not_lt.mpr hq)]
  · intro txs
    unfold sortedTransactions
    refine pairwise_sortStable ?_ ?_ ?_ txs
    · exact fun a b c hab hbc => le_trans hab hbc
    · intro a b hk
      exact le_of_lt (by simpa [createdAtAscKeep] using hk)
    · intro a b hk
      exact not_lt.mp (by simpa [createdAtAscKeep] using hk)
  · simp [calculatedRealizedPnL, realizedPnLReplay, sortedTransactions, sortStable,
      insertStable, createdAtAscKeep, pnlStep, lookupAssoc, setAssoc, pnlPercentage,
      clampEps, buyBtc1, sellBtc1]
    norm_num
  · simp [realizedPnLReplay, sortedTransactions, sortStable,
      insertStable, createdAtAscKeep, pnlStep, lookupAssoc, setAssoc, pnlPercentage,
      clampEps, buyBtc1, sellBtc1]

/-- C6 witness: the per-step emission and the concrete scenario, applied at
a running state of 2 ETH with total cost $200 and a $150 SELL of one
unit. -/
theorem claim_C6_realized_tracker_witness :
    (pnlStep ([("ETH", ⟨2, 200⟩)], []) sellEth1).2 =
      [] ++ [⟨"ETH", 5, pnlPercentage 150 (1 * ((200 : ℚ) / 2))⟩] := by
  have h := (claim_C6_realized_tracker.1 ([("ETH", ⟨2, 200⟩)], []) sellEth1 rfl
      (by simp [sellEth1])).1
    (by norm_num [sellEth1, lookupAssoc])
  simpa [sellEth1, lookupAssoc] using h

/-- C7 counterexample: profile A deposits $100 and withdraws $50, profile B
deposits $100.  The claim's net-contribution formula gives A an ownership of
50/150·100 = 100/3 percent; the engine reports 50 percent for both A and B,
because withdrawals are not subtracted. -/
theorem claim_C7_counterexample :
    ((calculatedClientBreakdown [profA, profB] [depA, wdA, depB] []).map
      (·.ownershipPercentage)) = [50, 50] ∧
    ((100 : ℚ) - 50) / (((100 : ℚ) - 50) + 100) * 100 ≠ 50 := by
  constructor
  · simp [calculatedClientBreakdown, clientRows, sortStable, insertStable,
      equityDescKeep, clientDeposits, bumpAssoc, lookupAssoc, totalDeposits,
      calculatedTPV, cryptoValue, calculatedAssetHoldings, cryptoHoldingsMap,
      holdingsStep, calculatedTotalCash, sumValues, List.filter,
      profA, profB, depA, wdA, depB]
    norm_num
  · norm_num

/-- C7 amended: each profile's breakdown row carries its summed DEPOSIT
transactions as capital (gross deposits — withdrawals are not netted), an
ownership share of that capital over the sum of all profile-tagged deposits
times 100 (0 when that denominator is not positive), and an equity of the
ownership share applied to the total portfolio value. -/
theorem claim_C7_ownership_row (profiles : List Profile) (txs : List Transaction)
    (prices : PriceMap) (p : Profile) (hp : p ∈ profiles) :
    ({ name := p.name,
       capitalDeposited := depositsFor txs p.id,
       ownershipPercentage :=
         if 0 < depositsTotal txs
           then depositsFor txs p.id / depositsTotal txs * 100 else 0,
       equityValue :=
         (if 0 < depositsTotal txs
           then depositsFor txs p.id / depositsTotal txs * 100 else 0) / 100 *
           calculatedTPV txs prices } : ClientBreakdown) ∈
      calculatedClientBreakdown profiles txs prices := by
  unfold calculatedClientBreakdown
  rw [(perm_sortStable equityDescKeep (clientRows profiles txs prices)).mem_iff]
  unfold clientRows
  apply List.mem_map.mpr
  refine ⟨p, hp, ?_⟩
  rw [getD_lookupAssoc_clientDeposits, totalDeposits_eq_depositsTotal]

/-- C7 witness: profile A's row at the concrete two-profile ledger. -/
theorem claim_C7_ownership_row_witness :
    ({ name := profA.name,
       capitalDeposited := depositsFor [depA, wdA, depB] profA.id,
       ownershipPercentage :=
         if 0 < depositsTotal [depA, wdA, depB]
           then depositsFor [depA, wdA, depB] profA.id /
             depositsTotal [depA, wdA, depB] * 100 else 0,
       equityValue :=
         (if 0 < depositsTotal [depA, wdA, depB]
           then depositsFor [depA, wdA, depB] profA.id /
             depositsTotal [depA, wdA, depB] * 100 else 0) / 100 *
           calculatedTPV [depA, wdA, depB] [] } : ClientBreakdown) ∈
      calculatedClientBreakdown [profA, profB] [depA, wdA, depB] [] :=
  claim_C7_ownership_row [profA, profB] [depA, wdA, depB] [] profA
    (List.mem_cons_self profA [profB])

/-- C8 counterexample: profile A (listed) deposits $100 and an orphan
deposit of $100 references the unlisted profile id `zz`.  At least one
listed profile has positive deposits, yet the ownership percentages sum to
50, not 100. -/
theorem claim_C8_counterexample :
    0 < depositsFor [depA, depOrphan] profA.id ∧
    ((calculatedClientBreakdown [profA] [depA, depOrphan] []).map
      (·.ownershipPercentage)).sum = 50 ∧
    (50 : ℚ) ≠ 100 := by
  refine ⟨?_, ?_, by norm_num⟩
  · simp [depositsFor, depA, depOrphan, profA, List.filter]
  · simp [calculatedClientBreakdown, clientRows, sortStable, insertStable,
      equityDescKeep, clientDeposits, bumpAssoc, lookupAssoc, totalDeposits,
      calculatedTPV, cryptoValue, calculatedAssetHoldings, cryptoHoldingsMap,
      holdingsStep, calculatedTotalCash, sumValues, List.filter,
      profA, depA, depOrphan]
    norm_num

/-- C8 amended: when the listed profiles have pairwise-distinct ids, every
profile-tagged DEPOSIT references a listed profile, and the deposit total is
positive, the ownership percentages of the client breakdown sum exactly to
100. -/
theorem claim_C8_ownership_sums_to_100 (profiles : List Profile)
    (txs : List Transaction) (prices : PriceMap)
    (hnd : (profiles.map Profile.id).Nodup)
    (hcov : ∀ t ∈ txs, t.transaction_type = TransactionType.DEPOSIT →
      ∀ pid, t.profile_id = some pid → pid ∈ profiles.map Profile.id)
    (hpos : 0 < totalDeposits txs) :
    ((calculatedClientBreakdown profiles txs prices).map
      (·.ownershipPercentage)).sum = 100 := by
  unfold calculatedClientBreakdown
  rw [List.Perm.sum_eq ((perm_sortStable equityDescKeep
    (clientRows profiles txs prices)).map _)]
  unfold clientRows
  rw [List.map_map]
  have hD : depositsTotal txs ≠ 0 := by
    rw [← totalDeposits_eq_depositsTotal]
    exact ne_of_gt hpos
  have hrows : profiles.map ((fun e : ClientBreakdown => e.ownershipPercentage) ∘
      (fun profile =>
        let capitalDeposited := (lookupAssoc (clientDeposits txs) profile.id).getD 0
        let ownershipPercentage :=
          if 0 < totalDeposits txs then capitalDeposited / totalDeposits txs * 100 else 0
        let equityValue := ownershipPercentage / 100 * calculatedTPV txs prices
        { name := profile.name, capitalDeposited := capitalDeposited,
          ownershipPercentage := ownershipPercentage, equityValue := equityValue })) =
      profiles.map (fun p => depositsFor txs p.id * (100 / depositsTotal txs)) := by
    apply List.map_congr_left
    intro p _
    simp only [Function.comp]
    rw [if_pos hpos, getD_lookupAssoc_clientDeposits, totalDeposits_eq_depositsTotal]
    ring
  rw [hrows, List.sum_map_mul_right, sum_depositsFor_profiles profiles txs hnd hcov,
    mul_comm, div_mul_cancel₀ _ hD]

/-- C8 witness: profiles A and B with $100 deposits each and no orphan
deposits; the ownership percentages sum to 100. -/
theorem claim_C8_ownership_sums_to_100_witness :
    ((calculatedClientBreakdown [profA, profB] [depA, depB] []).map
      (·.ownershipPercentage)).sum = 100 :=
  claim_C8_ownership_sums_to_100 [profA, profB] [depA, depB] []
    (by simp [profA, profB])
    (by
      intro t ht hd pid hpid
      rcases List.mem_cons.mp ht with h | h
      · subst h
        simp [depA] at hpid
        simp [profA, profB, ← hpid]
      · rcases List.mem_cons.mp h with h' | h'
        · subst h'
          simp [depB] at hpid
          simp [profA, profB, ← hpid]
        · simp at h')
    (by simp [totalDeposits, clientDeposits, bumpAssoc, lookupAssoc, depA, depB])

end CryptoMgmt
